import Mathlib

/-!
# Verification of the llmreader server (`server.py`)

A shallow embedding of the pure logic of `server.py` — tag normalization,
login rate limiting, highlight CRUD on the JSON-backed highlight document,
chapter navigation, upload control flow, and Markdown export — together
with theorems settling the specification's claims about them.

Modelling conventions:
* Python `str` is Lean `String`; `str.strip()` is `String.trim` and
  `str.lower()` is `String.toLower` (the tags and filenames concerned are
  ASCII, where these agree with Python).
* Python `float` timestamps from `time.time()` are modelled as `ℚ`
  (only ordering and subtraction of timestamps are used by the code).
* A Python `dict` is an association list; handlers that rely on dict key
  uniqueness take a `Nodup` hypothesis on the keys.
* External effects (the `reader3` conversion module, `uuid.uuid4()`,
  `datetime.utcnow()`, `datetime.fromisoformat`/`strftime`, the book
  pickle store) are parameters of the embedded functions.
* A handler that can `raise HTTPException` returns `Except` with the
  status code as the error payload.
-/

/-- A spine entry of a processed book: `book.spine[i].{title, href}`. -/
structure ChapterEntry where
  title : String
  href : String
deriving Repr, DecidableEq, Inhabited

/-- The part of a `Book` object used by the server: `metadata.title`,
`metadata.authors`, `metadata.tags`, and the ordered spine. -/
structure Book where
  title : String
  authors : List String
  tags : List String
  spine : List ChapterEntry
deriving Repr, DecidableEq, Inhabited

/-- A highlight record as built by `create_highlight` in `server.py`. -/
structure Highlight where
  id : String
  text : String
  chapter_index : Nat
  chapter_href : String
  start_offset : Nat
  end_offset : Nat
  timestamp : String
  note : String
  color : String
deriving Repr, DecidableEq, Inhabited

/-- The highlight document `highlights.json`: a dict from book id to
`{"highlights": [...]}`, modelled as an association list from book id to
the highlight list. -/
abbrev HighlightDoc := List (String × List Highlight)

/-- Dict lookup `d[k]` / `d.get(k)` on the association-list model. -/
def lookupDoc (doc : HighlightDoc) (k : String) : Option (List Highlight) :=
  match doc with
  | [] => none
  | (k', v) :: rest => if k' = k then some v else lookupDoc rest k

/-- Dict membership `k in d`. -/
def containsKey (doc : HighlightDoc) (k : String) : Bool :=
  match doc with
  | [] => false
  | (k', _) :: rest => k' = k || containsKey rest k

/-- Dict value update `d[k] = f d[k]`: rewrites the entry for key `k`
in place (a dict has at most one). -/
def mapValueAt (doc : HighlightDoc) (k : String)
    (f : List Highlight → List Highlight) : HighlightDoc :=
  doc.map (fun e => if e.1 = k then (e.1, f e.2) else e)

/-- The keys of the document, in insertion order. -/
def docKeys (doc : HighlightDoc) : List String := doc.map Prod.fst

/-- Every highlight id in the document, in document order. -/
def allIds (doc : HighlightDoc) : List String :=
  doc.flatMap (fun e => e.2.map Highlight.id)

/-- Total number of highlights stored in the document. -/
def totalHighlights (doc : HighlightDoc) : Nat :=
  (doc.map (fun e => e.2.length)).sum

/-- Python `str.strip()`: drop whitespace from both ends. (Defined over
the character list so that it evaluates by kernel reduction.) -/
def pyStrip (s : String) : String :=
  (((s.toList.dropWhile Char.isWhitespace).reverse.dropWhile
      Char.isWhitespace).reverse).asString

/-- Python `str.lower()` (ASCII). -/
def pyLower (s : String) : String :=
  (s.toList.map Char.toLower).asString

/- --- Tag Management (`update_book_tags`, server.py:545-587) --- -/

/-- First pass of `update_book_tags`: for each raw tag compute
`str(tag).strip().lower()` and keep it only if nonempty and of length at
most 30. -/
def cleanTags (tags_input : List String) : List String :=
  tags_input.filterMap (fun tag =>
    let tag_clean := pyLower (pyStrip tag)
    if tag_clean ≠ "" && tag_clean.length ≤ 30 then some tag_clean else none)

/-- The `seen`-set loop used by `update_book_tags` (and, for chapter
indices, by the export's `by_chapter` dict-key construction): removes
duplicates while preserving order. `seen` accumulates items already
kept. -/
def dedupeSeen {α : Type} [DecidableEq α] (seen : List α) : List α → List α
  | [] => []
  | t :: ts =>
    if t ∈ seen then dedupeSeen seen ts
    else t :: dedupeSeen (t :: seen) ts

/-- `PUT /api/books/{book_id}/tags`: loads the book (404 if missing),
normalizes and deduplicates the tag list, stores it on the book's
metadata and returns it. Returns the response tag list together with the
book snapshot persisted by `save_to_pickle`. -/
def update_book_tags (loadBook : String → Option Book) (book_id : String)
    (tags_input : List String) : Except Nat (List String × Book) :=
  match loadBook book_id with
  | none => .error 404
  | some book =>
    let unique_tags := dedupeSeen [] (cleanTags tags_input)
    .ok (unique_tags, { book with tags := unique_tags })

/-- Modelled from the spec: "deduplicates while preserving first-seen
order" — keep each first occurrence, drop every later duplicate. Used as
the specification-side dedup to compare `dedupeSeen` against. -/
def specFirstSeenDedupe : List String → List String
  | [] => []
  | t :: ts => t :: specFirstSeenDedupe (ts.filter (fun x => x ≠ t))
termination_by l => l.length
decreasing_by
  simp only [List.length_cons]
  exact Nat.lt_succ_of_le (ts.length_filter_le _)

/- --- Login rate limiting (`check_rate_limit`, `record_failed_attempt`,
`login_submit`, server.py:71-86 and 333-372) --- -/

/-- `MAX_ATTEMPTS = 5`. -/
def MAX_ATTEMPTS : Nat := 5

/-- `RATE_LIMIT_WINDOW = 15 * 60` seconds. -/
def RATE_LIMIT_WINDOW : ℚ := 15 * 60

/-- The `LOGIN_ATTEMPTS` map: IP → list of failed-attempt timestamps. -/
abbrev RateState := List (String × List ℚ)

/-- `LOGIN_ATTEMPTS.get(ip, [])` on the association-list model. -/
def attemptsOf (st : RateState) (ip : String) : List ℚ :=
  match st with
  | [] => []
  | (ip', ts) :: rest => if ip' = ip then ts else attemptsOf rest ip

/-- `LOGIN_ATTEMPTS[ip] = v`: replace the entry if present, else append
(dict assignment). -/
def setAttempts (st : RateState) (ip : String) (v : List ℚ) : RateState :=
  match st with
  | [] => [(ip, v)]
  | (ip', ts) :: rest =>
    if ip' = ip then (ip, v) :: rest else (ip', ts) :: setAttempts rest ip v

/-- The pruning step of `check_rate_limit`: keep attempts `t` with
`now - t < RATE_LIMIT_WINDOW`. -/
def pruneAttempts (now : ℚ) (attempts : List ℚ) : List ℚ :=
  attempts.filter (fun t => now - t < RATE_LIMIT_WINDOW)

/-- `check_rate_limit(ip)`: prunes the IP's attempt list in place and
returns `True` (allowed) iff fewer than `MAX_ATTEMPTS` remain. -/
def check_rate_limit (st : RateState) (ip : String) (now : ℚ) :
    Bool × RateState :=
  let attempts := pruneAttempts now (attemptsOf st ip)
  (attempts.length < MAX_ATTEMPTS, setAttempts st ip attempts)

/-- `record_failed_attempt(ip)`: append `now` to the IP's attempt list. -/
def record_failed_attempt (st : RateState) (ip : String) (now : ℚ) :
    RateState :=
  setAttempts st ip (attemptsOf st ip ++ [now])

/-- Outcome of `POST /login`: HTTP 429, HTTP 401, or the 302 redirect
that sets the auth cookie. -/
inductive LoginResult where
  | rateLimited
  | invalidPassword
  | success
deriving Repr, DecidableEq

/-- `login_submit`: check the rate limit first (429 regardless of the
password), then verify the password (recording a failure on mismatch).
`passwordOk` is the result of `verify_password`, an HMAC comparison that
holds exactly when the submitted password equals `AUTH_PASSWORD`. -/
def login_submit (st : RateState) (ip : String) (now : ℚ)
    (passwordOk : Bool) : LoginResult × RateState :=
  let (allowed, st1) := check_rate_limit st ip now
  if !allowed then (.rateLimited, st1)
  else if !passwordOk then (.invalidPassword, record_failed_attempt st1 ip now)
  else (.success, st1)

/- --- Highlight store (`get_highlight_by_id`, `get_book_highlights`,
`create_highlight`, `update_highlight`, `delete_highlight`,
server.py:210-222 and 601-718) --- -/

/-- The inner `enumerate` loop of `get_highlight_by_id`: scan one book's
highlight list for the id, carrying the running index. -/
def findInList (hid : String) (i : Nat) : List Highlight →
    Option (Highlight × Nat)
  | [] => none
  | h :: hs => if h.id = hid then some (h, i) else findInList hid (i + 1) hs

/-- `get_highlight_by_id`: linear scan of every book's highlight list in
document order; returns `(book_id, highlight, index)` of the first match. -/
def get_highlight_by_id (doc : HighlightDoc) (hid : String) :
    Option (String × Highlight × Nat) :=
  match doc with
  | [] => none
  | (book_id, hls) :: rest =>
    match findInList hid 0 hls with
    | some (h, idx) => some (book_id, h, idx)
    | none => get_highlight_by_id rest hid

/-- `GET /api/books/{book_id}/highlights`:
`highlights.get(book_id, {}).get('highlights', [])` — always 200, an
empty list for an unknown book. -/
def get_book_highlights (doc : HighlightDoc) (book_id : String) :
    List Highlight :=
  (lookupDoc doc book_id).getD []

/-- The optional fields of a `POST .../highlights` JSON body; `none`
models an absent key, read through `body.get(key, default)`. -/
structure CreateBody where
  text : Option String
  chapter_index : Option Nat
  chapter_href : Option String
  start_offset : Option Nat
  end_offset : Option Nat
  note : Option String
  color : Option String
deriving Repr, DecidableEq

/-- The highlight dict literal built by `create_highlight`. `newId`
models `str(uuid.uuid4())` and `utcnowIso` models
`datetime.utcnow().isoformat()`; the code appends `"Z"` itself. -/
def mkHighlight (newId utcnowIso : String) (body : CreateBody) : Highlight :=
  { id := newId
    text := body.text.getD ""
    chapter_index := body.chapter_index.getD 0
    chapter_href := body.chapter_href.getD ""
    start_offset := body.start_offset.getD 0
    end_offset := body.end_offset.getD 0
    timestamp := utcnowIso ++ "Z"
    note := body.note.getD ""
    color := body.color.getD "yellow" }

/-- `POST /api/books/{book_id}/highlights`: 404 if the book does not
load; otherwise build the highlight, initialize the book's entry if
absent (dict insertion appends a new key at the end), append, and save.
Returns the response highlight and the saved document. -/
def create_highlight (loadBook : String → Option Book)
    (newId utcnowIso : String) (doc : HighlightDoc) (book_id : String)
    (body : CreateBody) : Except Nat (Highlight × HighlightDoc) :=
  match loadBook book_id with
  | none => .error 404
  | some _ =>
    let hl := mkHighlight newId utcnowIso body
    let doc0 := if containsKey doc book_id then doc else doc ++ [(book_id, [])]
    .ok (hl, mapValueAt doc0 book_id (fun hls => hls ++ [hl]))

/-- `highlights[book_id]["highlights"][idx]["note"] = v`: rewrite the
note of the element at position `idx`. -/
def setNoteAt (v : String) : List Highlight → Nat → List Highlight
  | [], _ => []
  | h :: hs, 0 => { h with note := v } :: hs
  | h :: hs, n + 1 => h :: setNoteAt v hs n

/-- `PUT /api/highlights/{highlight_id}`: 404 if no book's list contains
the id; otherwise set the note at the scan-discovered index when the
body has a `"note"` key (`noteBody = some v`), and save. Returns the
response highlight and the saved document. -/
def update_highlight (doc : HighlightDoc) (hid : String)
    (noteBody : Option String) : Except Nat (Highlight × HighlightDoc) :=
  match get_highlight_by_id doc hid with
  | none => .error 404
  | some (book_id, hl, idx) =>
    match noteBody with
    | some v =>
      let doc' := mapValueAt doc book_id (fun hls => setNoteAt v hls idx)
      .ok ({ hl with note := v }, doc')
    | none => .ok (hl, doc)

/-- `DELETE /api/highlights/{highlight_id}`: 404 if no book's list
contains the id; otherwise delete the entry at the scan-discovered index
(`del ...[idx]`) and save. -/
def delete_highlight (doc : HighlightDoc) (hid : String) :
    Except Nat HighlightDoc :=
  match get_highlight_by_id doc hid with
  | none => .error 404
  | some (book_id, _, idx) =>
    .ok (mapValueAt doc book_id (fun hls => hls.eraseIdx idx))

/-- The contents of `highlights.json` after a delete request: the
handler raises 404 before any `save_highlights` call when the id is
unknown, so the stored document is unchanged in that case. -/
def docAfterDelete (doc : HighlightDoc) (hid : String) : HighlightDoc :=
  match delete_highlight doc hid with
  | .ok doc' => doc'
  | .error _ => doc

/- --- Chapter reading (`read_chapter`, server.py:417-440) --- -/

/-- The template context assembled by `read_chapter` (the parts the spec
talks about). -/
structure ChapterView where
  current_chapter : ChapterEntry
  chapter_index : Int
  prev_idx : Option Int
  next_idx : Option Int
deriving Repr, DecidableEq

/-- `GET /read/{book_id}/{chapter_index}` for an already-loaded book:
404 when the index is out of the spine's bounds, otherwise the chapter
together with the previous/next indices (none at the ends). -/
def read_chapter (book : Book) (chapter_index : Int) :
    Except Nat ChapterView :=
  if chapter_index < 0 ∨ (book.spine.length : Int) ≤ chapter_index then
    .error 404
  else
    let current_chapter := (book.spine.get? chapter_index.toNat).getD default
    let prev_idx := if 0 < chapter_index then some (chapter_index - 1) else none
    let next_idx :=
      if chapter_index < (book.spine.length : Int) - 1 then
        some (chapter_index + 1)
      else none
    .ok ⟨current_chapter, chapter_index, prev_idx, next_idx⟩

/- --- Upload (`_sanitize_filename`, `upload_epub`,
server.py:171-179 and 461-510) --- -/

/-- `os.path.basename` on a POSIX path: the part after the last `/`
(the accumulator restarts at each slash). -/
def basenamePosix (s : String) : String :=
  (s.toList.foldl (fun acc c => if c = '/' then [] else acc ++ [c]) []).asString

/-- Python `str.strip(".")`: remove leading and trailing dots. -/
def stripDots (s : String) : String :=
  (((s.toList.dropWhile (· = '.')).reverse.dropWhile (· = '.')).reverse).asString

/-- The character filter of `_sanitize_filename`: keep alphanumerics,
`-`, `_` and `.`. -/
def sanitizeChars (s : String) : String :=
  (s.toList.filter (fun c => c.isAlphanum || c = '-' || c = '_' || c = '.')).asString

/-- Split a character list at its last `.`: returns the prefix and the
suffix starting at that dot, or `none` when there is no dot. -/
def splitAtLastDot : List Char → Option (List Char × List Char)
  | [] => none
  | c :: cs =>
    match splitAtLastDot cs with
    | some (pre, suf) => some (c :: pre, suf)
    | none => if c = '.' then some ([], c :: cs) else none

/-- `os.path.splitext(p)[1]`: the extension starting at the basename's
last dot, empty when there is no dot or when every character before that
dot is itself a dot (leading dots do not start an extension). -/
def splitextExt (p : String) : String :=
  match splitAtLastDot (basenamePosix p).toList with
  | some (pre, suf) => if pre.any (fun c => c ≠ '.') then suf.asString else ""
  | none => ""

/-- `os.path.splitext(p)[0]`: everything before the extension. -/
def splitextRoot (p : String) : String :=
  (p.toList.take (p.toList.length - (splitextExt p).toList.length)).asString

/-- `_sanitize_filename`: basename, drop unsafe characters, strip dots,
fall back to `upload<ext>` when empty, and append the fallback extension
when the result has none. -/
def sanitize_filename (filename : String) (fallback_ext : String) : String :=
  let base := basenamePosix filename
  let safe := stripDots (sanitizeChars base)
  let safe := if safe = "" then "upload" ++ fallback_ext else safe
  if splitextExt safe = "" then safe ++ fallback_ext else safe

/-- Filesystem operations performed by `upload_epub`, in program order.
A run's effect trace shows what was written before a failure. -/
inductive FsEffect where
  /-- Stream the request body to the temp file at `path`. -/
  | writeTemp (path : String)
  /-- `process_pdf`/`process_epub` from `reader3`: populate `outDir`. -/
  | convert (src outDir : String)
  /-- `save_to_pickle(book_obj, out_dir)`. -/
  | savePickle (outDir : String)
  /-- `load_book_cached.cache_clear()`. -/
  | clearCache
  /-- Best-effort `shutil.rmtree(out_dir)` cleanup after a failure. -/
  | removeOutDir (outDir : String)
  /-- The `finally` block's removal of the temp upload file. -/
  | removeTemp (path : String)
deriving Repr, DecidableEq

/-- Outcome of `POST /upload`. -/
inductive UploadResult where
  /-- 400: missing filename or unsupported extension. -/
  | badRequest
  /-- 409: the derived book directory already exists. -/
  | conflict
  /-- 500: conversion failed (after cleanup). -/
  | serverError
  /-- 200 with `{book_id, title, chapters}`. -/
  | ok (book_id : String) (chapters : Nat)
deriving Repr, DecidableEq

/-- `upload_epub`: validate the filename and extension, derive the book
directory from the sanitized name, reject with 409 if it already exists,
and only then stream the body and convert. `fsExists` models
`os.path.exists` at request start, `convertOk`/`convertedBook` the
outcome of the external `reader3` conversion. `BOOKS_DIR = "."`, so the
`os.path.join` prefix is elided and `book_id = os.path.basename(out_dir)
= out_dir`. Returns the result paired with the trace of filesystem
effects. -/
def upload_epub (fsExists : String → Bool) (convertOk : Bool)
    (convertedBook : Book) (filename : String) :
    UploadResult × List FsEffect :=
  if filename = "" then (.badRequest, [])
  else
    let ext := pyLower (splitextExt filename)
    if ext ≠ ".epub" ∧ ext ≠ ".pdf" then (.badRequest, [])
    else
      let safe_name := sanitize_filename filename ext
      let base_name := splitextRoot safe_name
      let out_dir := base_name ++ "_data"
      if fsExists out_dir then (.conflict, [])
      else
        let temp_path := safe_name
        if convertOk then
          (.ok out_dir convertedBook.spine.length,
           [.writeTemp temp_path, .convert temp_path out_dir,
            .savePickle out_dir, .clearCache, .removeTemp temp_path])
        else
          (.serverError,
           [.writeTemp temp_path, .convert temp_path out_dir,
            .removeOutDir out_dir, .removeTemp temp_path])

/- --- Markdown export (`export_to_obsidian_markdown`,
server.py:225-295) --- -/

/-- `chapter_title`: the spine entry's title when the book loaded and
the index is in range, else the `Chapter {n+1}` fallback. -/
def chapterTitleFor (bookOpt : Option Book) (ch_idx : Nat) : String :=
  match bookOpt with
  | some book =>
    if h : ch_idx < book.spine.length then (book.spine.get ⟨ch_idx, h⟩).title
    else "Chapter " ++ toString (ch_idx + 1)
  | none => "Chapter " ++ toString (ch_idx + 1)

/-- The lines the export emits for one highlight: quoted text, block
anchor, optional note, optional formatted creation date, separator.
`fmtDate` models `datetime.fromisoformat` + `strftime('%Y-%m-%d')`,
returning `none` for an empty or unparseable timestamp. -/
def highlightLines (fmtDate : String → Option String) (hl : Highlight) :
    List String :=
  ["> " ++ pyStrip hl.text ++ "\n", "^" ++ hl.id ++ "\n"]
  ++ (if pyStrip hl.note = "" then []
      else ["Note: " ++ pyStrip hl.note ++ "\n"])
  ++ (match fmtDate hl.timestamp with
      | some d => ["Created: " ++ d ++ "\n"]
      | none => [])
  ++ ["\n---\n"]

/-- The lines for one chapter group of a book's section: the `###`
heading followed by that chapter's highlights in list order. -/
def chapterSection (fmtDate : String → Option String)
    (bookOpt : Option Book) (book_highlights : List Highlight)
    (ch_idx : Nat) : List String :=
  ("\n### " ++ chapterTitleFor bookOpt ch_idx ++ "\n")
    :: (book_highlights.filter (fun hl => hl.chapter_index == ch_idx)).flatMap
        (highlightLines fmtDate)

/-- The lines for one book's section: empty when the book's highlight
list is empty (`continue`), else the `## [[title]]` heading followed by
the chapter groups in sorted order of chapter index (`by_chapter`'s keys
are first-seen distinct indices, then sorted). -/
def bookSection (loadBook : String → Option Book)
    (fmtDate : String → Option String) (doc : HighlightDoc)
    (book_id : String) : List String :=
  let book_highlights := (lookupDoc doc book_id).getD []
  if book_highlights = [] then []
  else
    let bookOpt := loadBook book_id
    let book_title := match bookOpt with | some b => b.title | none => book_id
    ("\n## [[" ++ book_title ++ "]]\n")
      :: (List.insertionSort (· ≤ ·)
            (dedupeSeen [] (book_highlights.map Highlight.chapter_index))).flatMap
          (chapterSection fmtDate bookOpt book_highlights)

/-- `export_to_obsidian_markdown`: the placeholder document when the
highlight dict is empty, else the header line followed by each book's
section in sorted key order, joined with newlines. -/
def export_to_obsidian_markdown (loadBook : String → Option Book)
    (fmtDate : String → Option String) (doc : HighlightDoc) : String :=
  if doc = [] then "# Reading Highlights\n\nNo highlights yet."
  else
    String.intercalate "\n"
      ("# Reading Highlights\n"
        :: (List.insertionSort (· ≤ ·) (docKeys doc)).flatMap
            (bookSection loadBook fmtDate doc))

/- --- Reachable highlight documents --- -/

/-- One mutation of the highlight document through the API. The create
step's `fresh` hypothesis models `uuid.uuid4()`: a freshly generated
random identifier distinct from every identifier already stored. -/
inductive HStep : HighlightDoc → HighlightDoc → Prop where
  | create (loadBook : String → Option Book) (newId utcnowIso : String)
      (doc : HighlightDoc) (book_id : String) (body : CreateBody)
      (hl : Highlight) (doc' : HighlightDoc)
      (fresh : newId ∉ allIds doc)
      (h : create_highlight loadBook newId utcnowIso doc book_id body
            = .ok (hl, doc')) :
      HStep doc doc'
  | update (doc : HighlightDoc) (hid : String) (noteBody : Option String)
      (hl : Highlight) (doc' : HighlightDoc)
      (h : update_highlight doc hid noteBody = .ok (hl, doc')) :
      HStep doc doc'
  | delete (doc : HighlightDoc) (hid : String) (doc' : HighlightDoc)
      (h : delete_highlight doc hid = .ok doc') :
      HStep doc doc'

/-- Documents reachable from the empty store (a fresh `highlights.json`)
by create/update/delete requests. -/
inductive ReachableDoc : HighlightDoc → Prop where
  | empty : ReachableDoc []
  | step {d d' : HighlightDoc} : ReachableDoc d → HStep d d' → ReachableDoc d'

/-!
## Theorems

Each claim of the specification is settled by one theorem below.
-/

/-- `dedupeSeen` with accumulator `seen` computes the first-occurrence
dedup of the input restricted to items not already seen. -/
theorem dedupeSeen_eq_spec (seen l : List String) :
    dedupeSeen seen l = specFirstSeenDedupe (l.filter (fun x => x ∉ seen)) := by
  induction l generalizing seen with
  | nil => simp [dedupeSeen, specFirstSeenDedupe]
  | cons t ts ih =>
    by_cases h : t ∈ seen
    · simp only [dedupeSeen, if_pos h, List.filter_cons]
      simp [h, ih]
    · rw [dedupeSeen, if_neg h]
      have hfc : List.filter (fun x => decide (x ∉ seen)) (t :: ts)
          = t :: List.filter (fun x => decide (x ∉ seen)) ts := by
        simp [List.filter_cons, h]
      rw [hfc, specFirstSeenDedupe]
      congr 1
      rw [ih (t :: seen), List.filter_filter]
      congr 1
      exact List.filter_congr (fun x _ => by
        by_cases hx : x = t <;> by_cases hs : x ∈ seen <;>
          simp [hx, hs, List.mem_cons])

/-- **C1**: the tag-update operation normalizes each input tag by
trimming and lowercasing, drops tags empty after normalization or longer
than 30 characters, deduplicates preserving first-seen order, and
returns and persists exactly that list; on `["  Sci-Fi ", "sci-fi", ""]`
it yields `["sci-fi"]`. -/
theorem C1_update_book_tags_normalizes (loadBook : String → Option Book)
    (book_id : String) (book : Book) (tags_input : List String)
    (hload : loadBook book_id = some book) :
    update_book_tags loadBook book_id tags_input =
      .ok (specFirstSeenDedupe (cleanTags tags_input),
           { book with tags := specFirstSeenDedupe (cleanTags tags_input) })
    ∧ update_book_tags loadBook book_id ["  Sci-Fi ", "sci-fi", ""] =
        .ok (["sci-fi"], { book with tags := ["sci-fi"] }) := by
  have hmain : ∀ l : List String,
      update_book_tags loadBook book_id l =
        .ok (specFirstSeenDedupe (cleanTags l),
             { book with tags := specFirstSeenDedupe (cleanTags l) }) := by
    intro l
    rw [update_book_tags, hload]
    rw [dedupeSeen_eq_spec]
    simp
  refine ⟨hmain tags_input, ?_⟩
  rw [update_book_tags, hload]
  have hex : dedupeSeen [] (cleanTags ["  Sci-Fi ", "sci-fi", ""])
      = ["sci-fi"] := by decide
  rw [hex]

/-- Witness for C1 at a concrete store and input. -/
theorem C1_update_book_tags_normalizes_witness :
    update_book_tags (fun _ => some default) "b" ["  Sci-Fi ", "sci-fi", ""] =
      .ok (["sci-fi"], { (default : Book) with tags := ["sci-fi"] }) :=
  (C1_update_book_tags_normalizes (fun _ => some default) "b" default
    ["  Sci-Fi ", "sci-fi", ""] rfl).2

/-- A list loses length when filtering out a present element that fails
the predicate. -/
theorem length_filter_lt_of_mem {α : Type} (p : α → Bool) {l : List α}
    {x : α} (hx : x ∈ l) (hpx : p x = false) :
    (l.filter p).length < l.length := by
  induction l with
  | nil => cases hx
  | cons a as ih =>
    rcases List.mem_cons.mp hx with rfl | hmem
    · rw [List.filter_cons, hpx]
      simp only [Bool.false_eq_true, if_false, List.length_cons]
      exact Nat.lt_succ_of_le (as.length_filter_le p)
    · rw [List.filter_cons]
      cases hpa : p a with
      | true =>
        simp only [if_true, List.length_cons]
        exact Nat.succ_lt_succ (ih hmem)
      | false =>
        simp only [Bool.false_eq_true, if_false, List.length_cons]
        exact Nat.lt_succ_of_lt (ih hmem)

/-- **C2**: once 5 failures are on record within the 15-minute window,
`POST /login` returns 429 whatever the password; and with at most 5
failures on record of which one (in particular the oldest) has aged out
of the window, a correct password logs in again. -/
theorem C2_login_rate_limited (st : RateState) (ip : String) (now : ℚ)
    (passwordOk : Bool) :
    (MAX_ATTEMPTS ≤ (pruneAttempts now (attemptsOf st ip)).length →
      (login_submit st ip now passwordOk).1 = .rateLimited)
    ∧ ((attemptsOf st ip).length ≤ MAX_ATTEMPTS →
        (∃ t ∈ attemptsOf st ip, RATE_LIMIT_WINDOW ≤ now - t) →
        passwordOk = true →
        (login_submit st ip now passwordOk).1 = .success) := by
  constructor
  · intro hblocked
    have hnot : ¬ (pruneAttempts now (attemptsOf st ip)).length < MAX_ATTEMPTS :=
      Nat.not_lt.mpr hblocked
    simp [login_submit, check_rate_limit, hnot]
  · intro hlen ⟨t, htmem, htold⟩ hpw
    have hpt : (fun s => decide (now - s < RATE_LIMIT_WINDOW)) t = false := by
      simp only [decide_eq_false_iff_not, not_lt]
      exact htold
    have hlt : (pruneAttempts now (attemptsOf st ip)).length
        < (attemptsOf st ip).length :=
      length_filter_lt_of_mem _ htmem hpt
    have hallow : (pruneAttempts now (attemptsOf st ip)).length < MAX_ATTEMPTS :=
      Nat.lt_of_lt_of_le hlt hlen
    simp [login_submit, check_rate_limit, hallow, hpw]

/-- Witness for C2: an IP with 5 recorded failures is blocked at time
1000 even with the right password, and allowed again at time 1801 once
the oldest failure (time 901) has aged out. -/
theorem C2_login_rate_limited_witness :
    (login_submit [("1.2.3.4", [901, 910, 920, 930, 940])] "1.2.3.4" 1000
        true).1 = .rateLimited
    ∧ (login_submit [("1.2.3.4", [901, 910, 920, 930, 940])] "1.2.3.4" 1801
        true).1 = .success := by
  constructor
  · exact (C2_login_rate_limited [("1.2.3.4", [901, 910, 920, 930, 940])]
      "1.2.3.4" 1000 true).1
      (by norm_num [pruneAttempts, attemptsOf, MAX_ATTEMPTS,
        RATE_LIMIT_WINDOW, List.filter])
  · exact (C2_login_rate_limited [("1.2.3.4", [901, 910, 920, 930, 940])]
      "1.2.3.4" 1801 true).2
      (by norm_num [attemptsOf, MAX_ATTEMPTS])
      ⟨901, by norm_num [attemptsOf], by norm_num [RATE_LIMIT_WINDOW]⟩ rfl

/-- **C4**: the chapter-read operation 404s exactly when the index is
outside the spine bounds (negative or `≥ len(spine)`); on success
`prev_idx` is null iff the index is 0 (else `index - 1`) and `next_idx`
is null iff the index is the last spine position (else `index + 1`). -/
theorem C4_read_chapter_bounds (book : Book) (ci : Int) :
    (read_chapter book ci = .error 404 ↔
      ci < 0 ∨ (book.spine.length : Int) ≤ ci)
    ∧ (∀ v : ChapterView, read_chapter book ci = .ok v →
        (v.prev_idx = none ↔ ci = 0)
        ∧ (ci ≠ 0 → v.prev_idx = some (ci - 1))
        ∧ (v.next_idx = none ↔ ci = (book.spine.length : Int) - 1)
        ∧ (ci ≠ (book.spine.length : Int) - 1 →
            v.next_idx = some (ci + 1))) := by
  by_cases h : ci < 0 ∨ (book.spine.length : Int) ≤ ci
  · constructor
    · simp [read_chapter, h]
    · intro v hv
      rw [read_chapter, if_pos h] at hv
      cases hv
  · constructor
    · simp [read_chapter, h]
    · intro v hv
      rw [read_chapter, if_neg h] at hv
      injection hv with hv
      push_neg at h
      obtain ⟨h0, hlen⟩ := h
      subst hv
      refine ⟨?_, ?_, ?_, ?_⟩
      · by_cases hp : 0 < ci
        · simp only [if_pos hp]
          constructor
          · intro hsn; cases hsn
          · intro hc0; omega
        · simp only [if_neg hp]
          simp only [true_iff]
          omega
      · intro hne
        have hp : 0 < ci := by omega
        simp [if_pos hp]
      · by_cases hn : ci < (book.spine.length : Int) - 1
        · simp only [if_pos hn]
          constructor
          · intro hsn; cases hsn
          · intro hc; omega
        · simp only [if_neg hn]
          simp only [true_iff]
          omega
      · intro hne
        have hn : ci < (book.spine.length : Int) - 1 := by omega
        simp [if_pos hn]

/-- Witness for C4 on a two-chapter book at index 1 (the last chapter). -/
theorem C4_read_chapter_bounds_witness :
    (read_chapter ⟨"b", [], [], [⟨"c0", "h0"⟩, ⟨"c1", "h1"⟩]⟩ 1 = .error 404 ↔
      (1 : Int) < 0 ∨ ((2 : Nat) : Int) ≤ 1)
    ∧ ((some 0 = (none : Option Int) ↔ (1 : Int) = 0)
        ∧ ((1 : Int) ≠ 0 → (some 0 : Option Int) = some (1 - 1))
        ∧ ((none : Option Int) = none ↔ (1 : Int) = ((2 : Nat) : Int) - 1)
        ∧ ((1 : Int) ≠ ((2 : Nat) : Int) - 1 →
            (none : Option Int) = some (1 + 1))) := by
  have h := C4_read_chapter_bounds ⟨"b", [], [], [⟨"c0", "h0"⟩, ⟨"c1", "h1"⟩]⟩ 1
  exact ⟨h.1, h.2 ⟨⟨"c1", "h1"⟩, 1, some 0, none⟩ rfl⟩

/-- **C10**: fetching highlights of a book with no entry in the
document — even one the library does not contain — returns the empty
list with status 200, while creation of a highlight for a book the
store cannot load fails with 404. -/
theorem C10_get_book_highlights_total (doc : HighlightDoc)
    (book_id : String) (loadBook : String → Option Book)
    (hmiss : lookupDoc doc book_id = none)
    (hnobook : loadBook book_id = none) :
    get_book_highlights doc book_id = []
    ∧ ∀ newId utcnowIso body,
        create_highlight loadBook newId utcnowIso doc book_id body
          = .error 404 := by
  constructor
  · simp [get_book_highlights, hmiss]
  · intro newId utcnowIso body
    simp [create_highlight, hnobook]

/-- Witness for C10: an empty document and an empty library. -/
theorem C10_get_book_highlights_total_witness :
    get_book_highlights [] "ghost_data" = []
    ∧ ∀ newId utcnowIso body,
        create_highlight (fun _ => none) newId utcnowIso [] "ghost_data" body
          = .error 404 :=
  C10_get_book_highlights_total [] "ghost_data" (fun _ => none) rfl rfl

/-- `lookupDoc` after a `mapValueAt` at the same key maps the found
value. -/
theorem lookupDoc_mapValueAt_self (doc : HighlightDoc) (k : String)
    (f : List Highlight → List Highlight) :
    lookupDoc (mapValueAt doc k f) k = (lookupDoc doc k).map f := by
  induction doc with
  | nil => rfl
  | cons e rest ih =>
    obtain ⟨k', v⟩ := e
    by_cases hk : k' = k
    · subst hk
      have hcons : mapValueAt ((k', v) :: rest) k' f
          = (k', f v) :: mapValueAt rest k' f := by
        simp [mapValueAt]
      rw [hcons]
      simp [lookupDoc]
    · simp only [mapValueAt, List.map_cons]
      rw [if_neg hk]
      simpa [lookupDoc, hk] using ih

/-- `lookupDoc` after a `mapValueAt` at a different key is unchanged. -/
theorem lookupDoc_mapValueAt_other (doc : HighlightDoc) (k k' : String)
    (f : List Highlight → List Highlight) (hne : k' ≠ k) :
    lookupDoc (mapValueAt doc k f) k' = lookupDoc doc k' := by
  induction doc with
  | nil => rfl
  | cons e rest ih =>
    obtain ⟨k0, v⟩ := e
    by_cases hk : k0 = k
    · subst hk
      simp only [mapValueAt, List.map_cons, if_pos rfl]
      rw [lookupDoc, lookupDoc, if_neg (by exact fun h => hne h.symm),
        if_neg (by exact fun h => hne h.symm)]
      exact ih
    · simp only [mapValueAt, List.map_cons, if_neg hk]
      by_cases hk' : k0 = k'
      · simp [lookupDoc, hk']
      · rw [lookupDoc, lookupDoc, if_neg hk', if_neg hk']
        exact ih

/-- A key is contained iff `lookupDoc` finds it. -/
theorem lookupDoc_isSome_eq_containsKey (doc : HighlightDoc) (k : String) :
    (lookupDoc doc k).isSome = containsKey doc k := by
  induction doc with
  | nil => rfl
  | cons e rest ih =>
    obtain ⟨k', v⟩ := e
    by_cases hk : k' = k
    · simp [lookupDoc, containsKey, hk]
    · simp [lookupDoc, containsKey, hk, ih]

/-- `lookupDoc` over an append scans the left list first. -/
theorem lookupDoc_append (d1 d2 : HighlightDoc) (k : String) :
    lookupDoc (d1 ++ d2) k =
      match lookupDoc d1 k with
      | some v => some v
      | none => lookupDoc d2 k := by
  induction d1 with
  | nil => simp [lookupDoc]
  | cons e rest ih =>
    obtain ⟨k', v⟩ := e
    by_cases hk : k' = k
    · simp [lookupDoc, hk]
    · simp only [List.cons_append, lookupDoc, if_neg hk]
      exact ih

/-- **C6**: for an existing book, creating a highlight returns and
stores a record whose id is the freshly generated identifier, whose
color defaults to "yellow" when the request omits it, and whose
timestamp is the ISO UTC time with a trailing "Z"; the book's highlight
list afterwards is the old list with the new record appended, so a
subsequent fetch includes it. -/
theorem C6_create_highlight_fields (loadBook : String → Option Book)
    (book_id : String) (book : Book) (doc : HighlightDoc)
    (newId utcnowIso : String) (body : CreateBody)
    (hload : loadBook book_id = some book) :
    ∃ hl doc',
      create_highlight loadBook newId utcnowIso doc book_id body
        = .ok (hl, doc')
      ∧ hl.id = newId
      ∧ (body.color = none → hl.color = "yellow")
      ∧ (∀ c, body.color = some c → hl.color = c)
      ∧ hl.timestamp = utcnowIso ++ "Z"
      ∧ get_book_highlights doc' book_id
          = get_book_highlights doc book_id ++ [hl]
      ∧ hl ∈ get_book_highlights doc' book_id := by
  refine ⟨mkHighlight newId utcnowIso body,
    mapValueAt (if containsKey doc book_id then doc else doc ++ [(book_id, [])])
      book_id (fun hls => hls ++ [mkHighlight newId utcnowIso body]),
    ?_, rfl, ?_, ?_, rfl, ?_⟩
  · simp only [create_highlight, hload]
  · intro hc; simp [mkHighlight, hc]
  · intro c hc; simp [mkHighlight, hc]
  · have heq : get_book_highlights
        (mapValueAt
          (if containsKey doc book_id then doc else doc ++ [(book_id, [])])
          book_id (fun hls => hls ++ [mkHighlight newId utcnowIso body]))
        book_id
        = get_book_highlights doc book_id
            ++ [mkHighlight newId utcnowIso body] := by
      cases hck : containsKey doc book_id with
      | true =>
        have hsome : (lookupDoc doc book_id).isSome = true := by
          rw [lookupDoc_isSome_eq_containsKey, hck]
        obtain ⟨hls, hhls⟩ := Option.isSome_iff_exists.mp hsome
        simp only [eq_self_iff_true, if_true]
        rw [get_book_highlights, get_book_highlights,
          lookupDoc_mapValueAt_self, hhls]
        rfl
      | false =>
        have hnone : lookupDoc doc book_id = none := by
          have h := lookupDoc_isSome_eq_containsKey doc book_id
          rw [hck] at h
          exact Option.not_isSome_iff_eq_none.mp (by simp [h])
        simp only [Bool.false_eq_true, if_false]
        rw [get_book_highlights, get_book_highlights,
          lookupDoc_mapValueAt_self, lookupDoc_append, hnone]
        simp [lookupDoc]
    refine ⟨heq, ?_⟩
    rw [heq]
    simp

/-- Witness for C6: creating in an empty document for a loadable book,
with the color omitted. -/
theorem C6_create_highlight_fields_witness :
    ∃ hl doc',
      create_highlight (fun _ => some default) "uuid-1" "2024-01-01T00:00:00"
          [] "mybook_data"
          ⟨some "hello", some 0, some "ch0.html", some 3, some 8, none, none⟩
        = .ok (hl, doc')
      ∧ hl.id = "uuid-1"
      ∧ ((none : Option String) = none → hl.color = "yellow")
      ∧ (∀ c, (none : Option String) = some c → hl.color = c)
      ∧ hl.timestamp = "2024-01-01T00:00:00" ++ "Z"
      ∧ get_book_highlights doc' "mybook_data"
          = get_book_highlights [] "mybook_data" ++ [hl]
      ∧ hl ∈ get_book_highlights doc' "mybook_data" :=
  C6_create_highlight_fields (fun _ => some default) "mybook_data" default
    [] "uuid-1" "2024-01-01T00:00:00"
    ⟨some "hello", some 0, some "ch0.html", some 3, some 8, none, none⟩ rfl

/-- **C8**: an upload whose sanitized filename derives an already
existing book directory is rejected with 409, and its filesystem-effect
trace is empty — the duplicate check runs before the body is streamed,
so nothing is written or overwritten. -/
theorem C8_upload_duplicate_rejected (fsExists : String → Bool)
    (convertOk : Bool) (convertedBook : Book) (filename : String)
    (hname : filename ≠ "")
    (hext : pyLower (splitextExt filename) = ".epub"
            ∨ pyLower (splitextExt filename) = ".pdf")
    (hdup : fsExists
        (splitextRoot
            (sanitize_filename filename (pyLower (splitextExt filename)))
          ++ "_data") = true) :
    upload_epub fsExists convertOk convertedBook filename
      = (.conflict, []) := by
  have hext' : ¬(pyLower (splitextExt filename) ≠ ".epub"
      ∧ pyLower (splitextExt filename) ≠ ".pdf") := by tauto
  rw [upload_epub, if_neg hname]
  simp only [hext', if_false, hdup, if_true]

/-- Witness for C8: uploading `book.epub` when `book_data` exists. -/
theorem C8_upload_duplicate_rejected_witness :
    upload_epub (fun s => s == "book_data") true default "book.epub"
      = (.conflict, []) :=
  C8_upload_duplicate_rejected (fun s => s == "book_data") true default
    "book.epub" (by decide) (Or.inl (by decide)) (by decide)

/-- `containsKey` decides membership in the key list. -/
theorem containsKey_eq_true_iff (doc : HighlightDoc) (k : String) :
    containsKey doc k = true ↔ k ∈ docKeys doc := by
  induction doc with
  | nil => simp [containsKey, docKeys]
  | cons e rest ih =>
    obtain ⟨k', v⟩ := e
    by_cases hk : k' = k
    · subst hk
      simp [containsKey, docKeys]
    · have hk2 : ¬ k = k' := fun h => hk h.symm
      simp [containsKey, docKeys, hk, hk2, ih]

/-- The inner scan finds the first match: it splits the list at the
returned index, everything before it missing the id. -/
theorem findInList_spec (hid : String) :
    ∀ (hls : List Highlight) (n : Nat) (h : Highlight) (i : Nat),
      findInList hid n hls = some (h, i) →
      ∃ pre suf, hls = pre ++ h :: suf ∧ i = n + pre.length
        ∧ h.id = hid ∧ ∀ x ∈ pre, x.id ≠ hid := by
  intro hls
  induction hls with
  | nil => intro n h i hf; cases hf
  | cons a as ih =>
    intro n h i hf
    rw [findInList] at hf
    by_cases ha : a.id = hid
    · rw [if_pos ha] at hf
      injection hf with hf
      have hah : a = h := congrArg Prod.fst hf
      have hni : n = i := congrArg Prod.snd hf
      subst hah; subst hni
      exact ⟨[], as, rfl, by simp, ha, by simp⟩
    · rw [if_neg ha] at hf
      obtain ⟨pre, suf, heq, hi, hhid, hpre⟩ := ih (n + 1) h i hf
      refine ⟨a :: pre, suf, by rw [heq, List.cons_append], ?_, hhid, ?_⟩
      · simp only [List.length_cons]; omega
      · intro x hx
        rcases List.mem_cons.mp hx with rfl | hx
        · exact ha
        · exact hpre x hx

/-- The document-wide scan finds, in the first book entry containing the
id, the first matching highlight and its index; with dict-unique keys
that entry is the `lookupDoc` value of the returned book id. -/
theorem get_highlight_by_id_spec (hid : String) :
    ∀ (doc : HighlightDoc) (bid : String) (hl : Highlight) (idx : Nat),
      (docKeys doc).Nodup →
      get_highlight_by_id doc hid = some (bid, hl, idx) →
      ∃ hls pre suf, lookupDoc doc bid = some hls
        ∧ hls = pre ++ hl :: suf ∧ idx = pre.length
        ∧ hl.id = hid ∧ ∀ x ∈ pre, x.id ≠ hid := by
  intro doc
  induction doc with
  | nil => intro bid hl idx _ h; cases h
  | cons e rest ih =>
    intro bid hl idx hkeys h
    obtain ⟨k, khls⟩ := e
    rw [get_highlight_by_id] at h
    cases hf : findInList hid 0 khls with
    | some pr =>
      obtain ⟨p, i⟩ := pr
      rw [hf] at h
      injection h with h
      obtain ⟨h1, h23⟩ := Prod.mk.inj h
      obtain ⟨h2, h3⟩ := Prod.mk.inj h23
      subst h1; subst h2; subst h3
      obtain ⟨pre, suf, heq, hi0, hhid, hpre⟩ :=
        findInList_spec hid khls 0 p i hf
      exact ⟨khls, pre, suf, by simp [lookupDoc], heq, by omega, hhid, hpre⟩
    | none =>
      rw [hf] at h
      have hkeys' : (docKeys rest).Nodup := (List.nodup_cons.mp hkeys).2
      obtain ⟨hls, pre, suf, hlk, heq, hidx, hhid, hpre⟩ :=
        ih bid hl idx hkeys' h
      have hbidmem : bid ∈ docKeys rest := by
        rw [← containsKey_eq_true_iff, ← lookupDoc_isSome_eq_containsKey, hlk]
        rfl
      have hkne : k ≠ bid := by
        intro hkb
        exact (List.nodup_cons.mp hkeys).1 (hkb ▸ hbidmem)
      exact ⟨hls, pre, suf, by rw [lookupDoc, if_neg hkne]; exact hlk,
        heq, hidx, hhid, hpre⟩

/-- Erasing at the index of a designated middle element removes exactly
that element. -/
theorem eraseIdx_middle {α : Type} (x : α) (suf : List α) :
    ∀ pre : List α, (pre ++ x :: suf).eraseIdx pre.length = pre ++ suf
  | [] => rfl
  | a :: pre => by
    simp only [List.cons_append, List.length_cons, List.eraseIdx,
      List.append_eq]
    rw [eraseIdx_middle x suf pre]

/-- `allIds` of a cons. -/
theorem allIds_cons (k : String) (v : List Highlight)
    (rest : HighlightDoc) :
    allIds ((k, v) :: rest) = v.map Highlight.id ++ allIds rest := by
  simp [allIds]

/-- `allIds` splits around any looked-up book's ids. -/
theorem allIds_decomp (k : String) :
    ∀ (doc : HighlightDoc) (hls : List Highlight),
      lookupDoc doc k = some hls →
      ∃ l1 l2, allIds doc = l1 ++ hls.map Highlight.id ++ l2 := by
  intro doc
  induction doc with
  | nil => intro hls h; cases h
  | cons e rest ih =>
    intro hls h
    obtain ⟨k', v⟩ := e
    rw [lookupDoc] at h
    by_cases hk : k' = k
    · rw [if_pos hk] at h
      injection h with h
      subst h
      exact ⟨[], allIds rest, by rw [allIds_cons]; simp⟩
    · rw [if_neg hk] at h
      obtain ⟨l1, l2, hrest⟩ := ih hls h
      refine ⟨v.map Highlight.id ++ l1, l2, ?_⟩
      rw [allIds_cons, hrest]
      simp [List.append_assoc]

/-- A looked-up book's id list inherits `Nodup` from the document-wide
id list. -/
theorem bookIds_nodup {doc : HighlightDoc} {k : String}
    {hls : List Highlight} (hids : (allIds doc).Nodup)
    (hlk : lookupDoc doc k = some hls) :
    (hls.map Highlight.id).Nodup := by
  obtain ⟨l1, l2, hsplit⟩ := allIds_decomp k doc hls hlk
  rw [hsplit, List.append_assoc] at hids
  exact ((List.sublist_append_left _ l2).trans
    (List.sublist_append_right l1 _)).nodup hids

/-- **C5**: deleting an id that appears in no book's list yields 404 and
leaves the stored document unchanged; deleting a present id removes
exactly the entry at the scan-discovered index, leaves every other book
untouched, and the owning book's subsequent highlight fetch no longer
contains the id. (The document is assumed to satisfy its stated
invariant: dict-unique keys and globally unique highlight ids.) -/
theorem C5_delete_highlight_spec (doc : HighlightDoc) (hid : String)
    (hkeys : (docKeys doc).Nodup) (hids : (allIds doc).Nodup) :
    (get_highlight_by_id doc hid = none →
      delete_highlight doc hid = .error 404
      ∧ docAfterDelete doc hid = doc)
    ∧ (∀ bid hl idx,
        get_highlight_by_id doc hid = some (bid, hl, idx) →
        ∃ pre suf,
          lookupDoc doc bid = some (pre ++ hl :: suf)
          ∧ idx = pre.length ∧ hl.id = hid
          ∧ delete_highlight doc hid
              = .ok (mapValueAt doc bid (fun hls => hls.eraseIdx idx))
          ∧ get_book_highlights
              (mapValueAt doc bid (fun hls => hls.eraseIdx idx)) bid
              = pre ++ suf
          ∧ (∀ k, k ≠ bid →
              lookupDoc (mapValueAt doc bid (fun hls => hls.eraseIdx idx)) k
                = lookupDoc doc k)
          ∧ ∀ h' ∈ get_book_highlights
              (mapValueAt doc bid (fun hls => hls.eraseIdx idx)) bid,
              h'.id ≠ hid) := by
  constructor
  · intro hnone
    constructor
    · rw [delete_highlight, hnone]
    · rw [docAfterDelete, delete_highlight, hnone]
  · intro bid hl idx hfind
    obtain ⟨hls, pre, suf, hlk, heq, hidx, hhid, hpre⟩ :=
      get_highlight_by_id_spec hid doc bid hl idx hkeys hfind
    subst heq
    refine ⟨pre, suf, hlk, hidx, hhid, ?_, ?_, ?_, ?_⟩
    · rw [delete_highlight, hfind]
    · rw [get_book_highlights, lookupDoc_mapValueAt_self, hlk,
        Option.map_some', Option.getD_some, hidx, eraseIdx_middle]
    · intro k hk
      exact lookupDoc_mapValueAt_other doc bid k _ hk
    · intro h' hmem
      rw [get_book_highlights, lookupDoc_mapValueAt_self, hlk,
        Option.map_some', Option.getD_some, hidx, eraseIdx_middle] at hmem
      have hnodup : ((pre ++ hl :: suf).map Highlight.id).Nodup :=
        bookIds_nodup hids hlk
      rcases List.mem_append.mp hmem with hmemp | hmems
      · exact hpre h' hmemp
      · intro hh
        rw [List.map_append, List.map_cons] at hnodup
        have hdisj := (List.nodup_append.mp hnodup).2.2
        have : hl.id ∈ pre.map Highlight.id ∨
            hl.id ∈ suf.map Highlight.id := by
          right
          rw [← hhid] at hh
          exact List.mem_map.mpr ⟨h', hmems, hh⟩
        rcases this with hc | hc
        · exact hdisj hc (List.mem_cons_self _ _)
        · have hnodup2 := (List.nodup_append.mp hnodup).2.1
          exact (List.nodup_cons.mp hnodup2).1 hc

/-- Witness for C5: a document with two books; deleting an unknown id
404s, and deleting `"h2"` from the first book removes exactly it. -/
theorem C5_delete_highlight_spec_witness :
    (delete_highlight
        [("b_data", [⟨"h1", "t1", 0, "c", 0, 1, "", "", "yellow"⟩,
                     ⟨"h2", "t2", 0, "c", 2, 3, "", "", "blue"⟩]),
         ("c_data", [⟨"h3", "t3", 1, "d", 0, 1, "", "", "green"⟩])]
        "nope" = .error 404
      ∧ docAfterDelete
        [("b_data", [⟨"h1", "t1", 0, "c", 0, 1, "", "", "yellow"⟩,
                     ⟨"h2", "t2", 0, "c", 2, 3, "", "", "blue"⟩]),
         ("c_data", [⟨"h3", "t3", 1, "d", 0, 1, "", "", "green"⟩])]
        "nope"
        = [("b_data", [⟨"h1", "t1", 0, "c", 0, 1, "", "", "yellow"⟩,
                       ⟨"h2", "t2", 0, "c", 2, 3, "", "", "blue"⟩]),
           ("c_data", [⟨"h3", "t3", 1, "d", 0, 1, "", "", "green"⟩])])
    ∧ ∃ pre suf,
        lookupDoc
          [("b_data", [⟨"h1", "t1", 0, "c", 0, 1, "", "", "yellow"⟩,
                       ⟨"h2", "t2", 0, "c", 2, 3, "", "", "blue"⟩]),
           ("c_data", [⟨"h3", "t3", 1, "d", 0, 1, "", "", "green"⟩])]
          "b_data"
          = some (pre ++ ⟨"h2", "t2", 0, "c", 2, 3, "", "", "blue"⟩ :: suf)
        ∧ 1 = pre.length
        ∧ (⟨"h2", "t2", 0, "c", 2, 3, "", "", "blue"⟩ : Highlight).id = "h2"
        ∧ delete_highlight
            [("b_data", [⟨"h1", "t1", 0, "c", 0, 1, "", "", "yellow"⟩,
                         ⟨"h2", "t2", 0, "c", 2, 3, "", "", "blue"⟩]),
             ("c_data", [⟨"h3", "t3", 1, "d", 0, 1, "", "", "green"⟩])]
            "h2"
            = .ok (mapValueAt
                [("b_data", [⟨"h1", "t1", 0, "c", 0, 1, "", "", "yellow"⟩,
                             ⟨"h2", "t2", 0, "c", 2, 3, "", "", "blue"⟩]),
                 ("c_data", [⟨"h3", "t3", 1, "d", 0, 1, "", "", "green"⟩])]
                "b_data" (fun hls => hls.eraseIdx 1))
        ∧ get_book_highlights
            (mapValueAt
              [("b_data", [⟨"h1", "t1", 0, "c", 0, 1, "", "", "yellow"⟩,
                           ⟨"h2", "t2", 0, "c", 2, 3, "", "", "blue"⟩]),
               ("c_data", [⟨"h3", "t3", 1, "d", 0, 1, "", "", "green"⟩])]
              "b_data" (fun hls => hls.eraseIdx 1)) "b_data"
            = pre ++ suf
        ∧ (∀ k, k ≠ "b_data" →
            lookupDoc (mapValueAt
              [("b_data", [⟨"h1", "t1", 0, "c", 0, 1, "", "", "yellow"⟩,
                           ⟨"h2", "t2", 0, "c", 2, 3, "", "", "blue"⟩]),
               ("c_data", [⟨"h3", "t3", 1, "d", 0, 1, "", "", "green"⟩])]
              "b_data" (fun hls => hls.eraseIdx 1)) k
              = lookupDoc
                [("b_data", [⟨"h1", "t1", 0, "c", 0, 1, "", "", "yellow"⟩,
                             ⟨"h2", "t2", 0, "c", 2, 3, "", "", "blue"⟩]),
                 ("c_data", [⟨"h3", "t3", 1, "d", 0, 1, "", "", "green"⟩])]
                k)
        ∧ ∀ h' ∈ get_book_highlights
            (mapValueAt
              [("b_data", [⟨"h1", "t1", 0, "c", 0, 1, "", "", "yellow"⟩,
                           ⟨"h2", "t2", 0, "c", 2, 3, "", "", "blue"⟩]),
               ("c_data", [⟨"h3", "t3", 1, "d", 0, 1, "", "", "green"⟩])]
              "b_data" (fun hls => hls.eraseIdx 1)) "b_data",
            h'.id ≠ "h2" := by
  have h := C5_delete_highlight_spec
    [("b_data", [⟨"h1", "t1", 0, "c", 0, 1, "", "", "yellow"⟩,
                 ⟨"h2", "t2", 0, "c", 2, 3, "", "", "blue"⟩]),
     ("c_data", [⟨"h3", "t3", 1, "d", 0, 1, "", "", "green"⟩])]
  exact ⟨(h "nope" (by decide) (by decide)).1 (by decide),
    (h "h2" (by decide) (by decide)).2 "b_data"
      ⟨"h2", "t2", 0, "c", 2, 3, "", "", "blue"⟩ 1 (by decide)⟩

/-- Overwriting the note at the index of a designated middle element
rewrites exactly that element's note. -/
theorem setNoteAt_middle (v : String) (hl : Highlight)
    (suf : List Highlight) :
    ∀ pre : List Highlight, setNoteAt v (pre ++ hl :: suf) pre.length
      = pre ++ { hl with note := v } :: suf
  | [] => rfl
  | a :: pre => by
    simp only [List.cons_append, List.length_cons, setNoteAt,
      List.append_eq]
    rw [setNoteAt_middle v hl suf pre]

/-- **C7**: updating an existing highlight with a note body changes only
that highlight's note: the stored entry becomes the old record with just
the note replaced (id, text, chapter index and href, offsets, timestamp
and color untouched), every other highlight of the book keeps its
position and value, and every other book's list is unchanged. -/
theorem C7_update_highlight_frame (doc : HighlightDoc) (hid v : String)
    (bid : String) (hl : Highlight) (idx : Nat)
    (hkeys : (docKeys doc).Nodup)
    (hfind : get_highlight_by_id doc hid = some (bid, hl, idx)) :
    ∃ pre suf,
      lookupDoc doc bid = some (pre ++ hl :: suf)
      ∧ idx = pre.length
      ∧ update_highlight doc hid (some v)
          = .ok ({ hl with note := v },
              mapValueAt doc bid (fun hls => setNoteAt v hls idx))
      ∧ lookupDoc (mapValueAt doc bid (fun hls => setNoteAt v hls idx)) bid
          = some (pre ++ { hl with note := v } :: suf)
      ∧ (∀ k, k ≠ bid →
          lookupDoc (mapValueAt doc bid (fun hls => setNoteAt v hls idx)) k
            = lookupDoc doc k) := by
  obtain ⟨hls, pre, suf, hlk, heq, hidx, hhid, hpre⟩ :=
    get_highlight_by_id_spec hid doc bid hl idx hkeys hfind
  subst heq
  refine ⟨pre, suf, hlk, hidx, ?_, ?_, ?_⟩
  · rw [update_highlight, hfind]
  · rw [lookupDoc_mapValueAt_self, hlk, Option.map_some', hidx,
      setNoteAt_middle]
  · intro k hk
    exact lookupDoc_mapValueAt_other doc bid k _ hk

/-- Witness for C7: updating the note of the only highlight of a
one-book document. -/
theorem C7_update_highlight_frame_witness :
    ∃ pre suf,
      lookupDoc [("b_data", [⟨"h1", "txt", 0, "c", 0, 1, "ts", "", "yellow"⟩])]
          "b_data"
        = some (pre ++ ⟨"h1", "txt", 0, "c", 0, 1, "ts", "", "yellow"⟩ :: suf)
      ∧ 0 = pre.length
      ∧ update_highlight
          [("b_data", [⟨"h1", "txt", 0, "c", 0, 1, "ts", "", "yellow"⟩])]
          "h1" (some "my note")
          = .ok ({ (⟨"h1", "txt", 0, "c", 0, 1, "ts", "", "yellow"⟩ : Highlight)
                    with note := "my note" },
              mapValueAt
                [("b_data", [⟨"h1", "txt", 0, "c", 0, 1, "ts", "", "yellow"⟩])]
                "b_data" (fun hls => setNoteAt "my note" hls 0))
      ∧ lookupDoc
          (mapValueAt
            [("b_data", [⟨"h1", "txt", 0, "c", 0, 1, "ts", "", "yellow"⟩])]
            "b_data" (fun hls => setNoteAt "my note" hls 0)) "b_data"
          = some (pre
              ++ { (⟨"h1", "txt", 0, "c", 0, 1, "ts", "", "yellow"⟩ : Highlight)
                    with note := "my note" } :: suf)
      ∧ (∀ k, k ≠ "b_data" →
          lookupDoc
            (mapValueAt
              [("b_data", [⟨"h1", "txt", 0, "c", 0, 1, "ts", "", "yellow"⟩])]
              "b_data" (fun hls => setNoteAt "my note" hls 0)) k
            = lookupDoc
                [("b_data", [⟨"h1", "txt", 0, "c", 0, 1, "ts", "", "yellow"⟩])]
                k) :=
  C7_update_highlight_frame
    [("b_data", [⟨"h1", "txt", 0, "c", 0, 1, "ts", "", "yellow"⟩])]
    "h1" "my note" "b_data"
    ⟨"h1", "txt", 0, "c", 0, 1, "ts", "", "yellow"⟩ 0
    (by decide) (by decide)

/-- `docKeys` of a cons. -/
theorem docKeys_cons (k : String) (v : List Highlight)
    (rest : HighlightDoc) :
    docKeys ((k, v) :: rest) = k :: docKeys rest := rfl

/-- `mapValueAt` at an absent key is the identity. -/
theorem mapValueAt_eq_self {doc : HighlightDoc} {k : String}
    {f : List Highlight → List Highlight}
    (h : containsKey doc k = false) : mapValueAt doc k f = doc := by
  induction doc with
  | nil => rfl
  | cons e rest ih =>
    obtain ⟨k', v⟩ := e
    rw [containsKey] at h
    simp only [Bool.or_eq_false_iff, decide_eq_false_iff_not] at h
    simp only [mapValueAt, List.map_cons, if_neg h.1]
    rw [show List.map
        (fun e => if e.1 = k then (e.1, f e.2) else e) rest
        = mapValueAt rest k f from rfl, ih h.2]

/-- `mapValueAt` distributes over append. -/
theorem mapValueAt_append (d1 d2 : HighlightDoc) (k : String)
    (f : List Highlight → List Highlight) :
    mapValueAt (d1 ++ d2) k f = mapValueAt d1 k f ++ mapValueAt d2 k f := by
  simp [mapValueAt]

/-- `allIds` distributes over append. -/
theorem allIds_append (d1 d2 : HighlightDoc) :
    allIds (d1 ++ d2) = allIds d1 ++ allIds d2 := by
  simp [allIds]

/-- `mapValueAt` keeps the key list. -/
theorem docKeys_mapValueAt (doc : HighlightDoc) (k : String)
    (f : List Highlight → List Highlight) :
    docKeys (mapValueAt doc k f) = docKeys doc := by
  induction doc with
  | nil => rfl
  | cons e rest ih =>
    obtain ⟨k', v⟩ := e
    by_cases hk : k' = k
    · subst hk
      have hcons : mapValueAt ((k', v) :: rest) k' f
          = (k', f v) :: mapValueAt rest k' f := by simp [mapValueAt]
      rw [hcons, docKeys_cons, docKeys_cons, ih]
    · have hcons : mapValueAt ((k', v) :: rest) k f
          = (k', v) :: mapValueAt rest k f := by simp [mapValueAt, hk]
      rw [hcons, docKeys_cons, docKeys_cons, ih]

/-- `mapValueAt` with an id-preserving function keeps `allIds`. -/
theorem allIds_mapValueAt_congr (doc : HighlightDoc) (k : String)
    (f : List Highlight → List Highlight)
    (hf : ∀ hls, (f hls).map Highlight.id = hls.map Highlight.id) :
    allIds (mapValueAt doc k f) = allIds doc := by
  induction doc with
  | nil => rfl
  | cons e rest ih =>
    obtain ⟨k', v⟩ := e
    by_cases hk : k' = k
    · subst hk
      have hcons : mapValueAt ((k', v) :: rest) k' f
          = (k', f v) :: mapValueAt rest k' f := by simp [mapValueAt]
      rw [hcons, allIds_cons, allIds_cons, hf, ih]
    · have hcons : mapValueAt ((k', v) :: rest) k f
          = (k', v) :: mapValueAt rest k f := by simp [mapValueAt, hk]
      rw [hcons, allIds_cons, allIds_cons, ih]

/-- `mapValueAt` with an id-sublist function shrinks `allIds`. -/
theorem allIds_mapValueAt_sublist (doc : HighlightDoc) (k : String)
    (f : List Highlight → List Highlight)
    (hf : ∀ hls, List.Sublist ((f hls).map Highlight.id)
      (hls.map Highlight.id)) :
    List.Sublist (allIds (mapValueAt doc k f)) (allIds doc) := by
  induction doc with
  | nil => exact List.Sublist.refl _
  | cons e rest ih =>
    obtain ⟨k', v⟩ := e
    by_cases hk : k' = k
    · subst hk
      have hcons : mapValueAt ((k', v) :: rest) k' f
          = (k', f v) :: mapValueAt rest k' f := by simp [mapValueAt]
      rw [hcons, allIds_cons, allIds_cons]
      exact List.Sublist.append (hf v) ih
    · have hcons : mapValueAt ((k', v) :: rest) k f
          = (k', v) :: mapValueAt rest k f := by simp [mapValueAt, hk]
      rw [hcons, allIds_cons, allIds_cons]
      exact List.Sublist.append (List.Sublist.refl _) ih

/-- Appending a highlight to a present book's list permutes `allIds`
into the new id consed onto the old ids. -/
theorem allIds_mapValueAt_push (x : Highlight) :
    ∀ (doc : HighlightDoc) (k : String), (docKeys doc).Nodup →
      containsKey doc k = true →
      List.Perm (allIds (mapValueAt doc k (fun hls => hls ++ [x])))
        (x.id :: allIds doc) := by
  intro doc
  induction doc with
  | nil => intro k _ hck; cases hck
  | cons e rest ih =>
    intro k hkeys hck
    obtain ⟨k', v⟩ := e
    rw [docKeys_cons] at hkeys
    by_cases hk : k' = k
    · subst hk
      have hnmem : k' ∉ docKeys rest := (List.nodup_cons.mp hkeys).1
      have hrest : containsKey rest k' = false := by
        cases hcr : containsKey rest k' with
        | false => rfl
        | true =>
          exact absurd ((containsKey_eq_true_iff rest k').mp hcr) hnmem
      have hcons : mapValueAt ((k', v) :: rest) k' (fun hls => hls ++ [x])
          = (k', v ++ [x]) :: mapValueAt rest k' (fun hls => hls ++ [x]) := by
        simp [mapValueAt]
      rw [hcons, mapValueAt_eq_self hrest, allIds_cons, allIds_cons,
        List.map_append]
      have hx : [x].map Highlight.id = [x.id] := rfl
      rw [hx, List.append_assoc]
      exact List.perm_middle
    · have hck' : containsKey rest k = true := by
        rw [containsKey] at hck
        simpa [hk] using hck
      have hcons : mapValueAt ((k', v) :: rest) k (fun hls => hls ++ [x])
          = (k', v) :: mapValueAt rest k (fun hls => hls ++ [x]) := by
        simp [mapValueAt, hk]
      rw [hcons, allIds_cons, allIds_cons]
      exact ((ih k (List.nodup_cons.mp hkeys).2 hck').append_left _).trans
        List.perm_middle

/-- `setNoteAt` keeps every highlight's id. -/
theorem setNoteAt_map_id (v : String) :
    ∀ (hls : List Highlight) (idx : Nat),
      (setNoteAt v hls idx).map Highlight.id = hls.map Highlight.id
  | [], _ => rfl
  | _ :: hs, 0 => rfl
  | h :: hs, n + 1 => by
    simp only [setNoteAt, List.map_cons]
    rw [setNoteAt_map_id v hs n]

/-- One API mutation preserves dict-unique keys and globally unique
highlight ids. -/
theorem step_preserves_inv {d d' : HighlightDoc} (hst : HStep d d')
    (hkeys : (docKeys d).Nodup) (hids : (allIds d).Nodup) :
    (docKeys d').Nodup ∧ (allIds d').Nodup := by
  cases hst with
  | create loadBook newId utcnowIso dgone book_id body hl dgone2 fresh h =>
    cases hlb : loadBook book_id with
    | none => rw [create_highlight, hlb] at h; cases h
    | some b =>
      simp only [create_highlight, hlb] at h
      obtain ⟨hhl, hdoc⟩ := Prod.mk.inj (Except.ok.inj h)
      subst hdoc
      cases hck : containsKey d book_id with
      | true =>
        simp only [hck, if_true]
        constructor
        · rw [docKeys_mapValueAt]; exact hkeys
        · have hperm := allIds_mapValueAt_push
            (mkHighlight newId utcnowIso body) d book_id hkeys hck
          rw [hperm.nodup_iff, List.nodup_cons]
          exact ⟨fresh, hids⟩
      | false =>
        simp only [hck, Bool.false_eq_true, if_false]
        rw [mapValueAt_append, mapValueAt_eq_self hck]
        have hsingle : mapValueAt [(book_id, [])] book_id
            (fun hls => hls ++ [mkHighlight newId utcnowIso body])
            = [(book_id, [mkHighlight newId utcnowIso body])] := by
          simp [mapValueAt]
        rw [hsingle]
        constructor
        · rw [docKeys, List.map_append]
          rw [List.nodup_append]
          refine ⟨hkeys, by simp, ?_⟩
          intro a ha hamem
          have hbid : a = book_id := by
            simpa [docKeys] using hamem
          subst hbid
          have : containsKey d a = true :=
            (containsKey_eq_true_iff d a).mpr ha
          rw [hck] at this
          cases this
        · rw [allIds_append, List.nodup_append]
          refine ⟨hids, by simp [allIds], ?_⟩
          intro a ha hamem
          have haid : a = newId := by
            simpa [allIds, mkHighlight] using hamem
          subst haid
          exact fresh ha
  | update dgone hid noteBody hl dgone2 h =>
    cases hf : get_highlight_by_id d hid with
    | none => rw [update_highlight, hf] at h; cases h
    | some found =>
      obtain ⟨bid, p, idx⟩ := found
      rw [update_highlight, hf] at h
      cases noteBody with
      | none =>
        obtain ⟨_, hdoc⟩ := Prod.mk.inj (Except.ok.inj h)
        subst hdoc
        exact ⟨hkeys, hids⟩
      | some v =>
        obtain ⟨_, hdoc⟩ := Prod.mk.inj (Except.ok.inj h)
        subst hdoc
        constructor
        · rw [docKeys_mapValueAt]; exact hkeys
        · rw [allIds_mapValueAt_congr d bid _
            (fun hls => setNoteAt_map_id v hls idx)]
          exact hids
  | delete dgone hid dgone2 h =>
    cases hf : get_highlight_by_id d hid with
    | none => rw [delete_highlight, hf] at h; cases h
    | some found =>
      obtain ⟨bid, p, idx⟩ := found
      rw [delete_highlight, hf] at h
      have hdoc := Except.ok.inj h
      subst hdoc
      constructor
      · rw [docKeys_mapValueAt]; exact hkeys
      · exact List.Nodup.sublist
          (allIds_mapValueAt_sublist d bid _
            (fun hls => (List.eraseIdx_sublist hls idx).map Highlight.id))
          hids

/-- **C9**: in every document reachable from the empty store by create,
update, and delete requests (with `uuid4` yielding fresh identifiers),
every highlight id is unique across the entire document, not just within
its own book's list. -/
theorem C9_reachable_ids_nodup (d : HighlightDoc)
    (h : ReachableDoc d) : (allIds d).Nodup := by
  suffices hinv : (docKeys d).Nodup ∧ (allIds d).Nodup from hinv.2
  induction h with
  | empty => exact ⟨List.nodup_nil, List.nodup_nil⟩
  | step _ hst ih => exact step_preserves_inv hst ih.1 ih.2

/-- Witness for C9: the document reached by two creates (a new book
entry, then an append to it) has globally unique ids. -/
theorem C9_reachable_ids_nodup_witness :
    (allIds [("b_data",
      [mkHighlight "id1" "t1" ⟨none, none, none, none, none, none, none⟩,
       mkHighlight "id2" "t2" ⟨none, none, none, none, none, none, none⟩])]).Nodup :=
  C9_reachable_ids_nodup _
    (ReachableDoc.step
      (ReachableDoc.step ReachableDoc.empty
        (HStep.create (fun _ => some default) "id1" "t1" [] "b_data"
          ⟨none, none, none, none, none, none, none⟩
          (mkHighlight "id1" "t1" ⟨none, none, none, none, none, none, none⟩)
          [("b_data",
            [mkHighlight "id1" "t1" ⟨none, none, none, none, none, none, none⟩])]
          (by simp [allIds]) rfl))
      (HStep.create (fun _ => some default) "id2" "t2"
        [("b_data",
          [mkHighlight "id1" "t1" ⟨none, none, none, none, none, none, none⟩])]
        "b_data" ⟨none, none, none, none, none, none, none⟩
        (mkHighlight "id2" "t2" ⟨none, none, none, none, none, none, none⟩)
        [("b_data",
          [mkHighlight "id1" "t1" ⟨none, none, none, none, none, none, none⟩,
           mkHighlight "id2" "t2" ⟨none, none, none, none, none, none, none⟩])]
        (by decide) rfl))

/-- In a document whose every entry holds an empty highlight list, any
successful lookup yields the empty list. -/
theorem lookupDoc_all_empty :
    ∀ (doc : HighlightDoc) (k : String) (v : List Highlight),
      (∀ e ∈ doc, e.2 = ([] : List Highlight)) →
      lookupDoc doc k = some v → v = [] := by
  intro doc
  induction doc with
  | nil => intro k v _ h; cases h
  | cons e rest ih =>
    intro k v hall h
    obtain ⟨k', w⟩ := e
    rw [lookupDoc] at h
    by_cases hk : k' = k
    · rw [if_pos hk] at h
      injection h with h
      subst h
      exact hall (k', w) (List.mem_cons_self _ _)
    · rw [if_neg hk] at h
      exact ih k v (fun e he => hall e (List.mem_cons_of_mem _ he)) h

/-- Counterexample to **C3** as stated: the document
`{"b_data": {"highlights": []}}` contains zero highlights in total, yet
the export is not the placeholder message (the code tests whether the
dict itself is empty, not whether the total highlight count is zero). -/
theorem C3_export_counterexample :
    totalHighlights [("b_data", [])] = 0
    ∧ export_to_obsidian_markdown (fun _ => none) (fun _ => none)
        [("b_data", [])]
        ≠ "# Reading Highlights\n\nNo highlights yet." := by
  constructor
  · rfl
  · decide

/-- **C3** (amended): the export omits the section of any book whose
highlight list is empty (its section contributes no lines); the
placeholder is produced for the empty document — the dict with no book
entries — while a nonempty document whose every highlight list is empty
yields just the header line, not the placeholder. -/
theorem C3_export_empty_behavior (loadBook : String → Option Book)
    (fmtDate : String → Option String) :
    (export_to_obsidian_markdown loadBook fmtDate []
      = "# Reading Highlights\n\nNo highlights yet.")
    ∧ (∀ (doc : HighlightDoc) (bid : String),
        lookupDoc doc bid = some [] →
        bookSection loadBook fmtDate doc bid = [])
    ∧ (∀ doc : HighlightDoc, doc ≠ [] →
        (∀ e ∈ doc, e.2 = ([] : List Highlight)) →
        export_to_obsidian_markdown loadBook fmtDate doc
          = "# Reading Highlights\n") := by
  refine ⟨rfl, ?_, ?_⟩
  · intro doc bid h
    rw [bookSection, h]
    rfl
  · intro doc hne hall
    rw [export_to_obsidian_markdown, if_neg hne]
    have hfm : (List.insertionSort (· ≤ ·) (docKeys doc)).flatMap
        (bookSection loadBook fmtDate doc) = [] := by
      apply List.flatMap_eq_nil_iff.mpr
      intro k _
      rw [bookSection]
      cases hlk : lookupDoc doc k with
      | none => rfl
      | some v =>
        have hv : v = [] := lookupDoc_all_empty doc k v hall hlk
        subst hv
        rfl
    rw [hfm]
    rfl

/-- Witness for the amended C3 at concrete documents: the empty
document gives the placeholder, an empty-list book contributes no
section, and an all-empty nonempty document gives only the header. -/
theorem C3_export_empty_behavior_witness :
    (export_to_obsidian_markdown (fun _ => none) (fun _ => none) []
      = "# Reading Highlights\n\nNo highlights yet.")
    ∧ bookSection (fun _ => none) (fun _ => none) [("b_data", [])] "b_data"
        = []
    ∧ export_to_obsidian_markdown (fun _ => none) (fun _ => none)
        [("b_data", [])]
        = "# Reading Highlights\n" :=
  ⟨(C3_export_empty_behavior (fun _ => none) (fun _ => none)).1,
   (C3_export_empty_behavior (fun _ => none) (fun _ => none)).2.1
     [("b_data", [])] "b_data" (by decide),
   (C3_export_empty_behavior (fun _ => none) (fun _ => none)).2.2
     [("b_data", [])] (by decide) (by decide)⟩
